import Mathlib

/-!
Verification of the gastown fleet-management core: the address resolver
(pattern resolution and session-name-to-address translation), the freshness
gate, the Claude-settings compliance scanner and remediator, and the polecat
branch-pruning workflow.

The resolver, freshness gate and compliance scanner are shallowly embedded
from the specification and its tests (their implementation files are not part
of the source tree); the branch-pruning workflow is embedded from
`internal/cmd/polecat_prune.go`.
-/

set_option maxRecDepth 4000

/-! ## Character-list utilities (segment splitting) -/

/-- Split a character list on a separator: every occurrence of `sep` starts a
new segment, so `"a/b"` yields `["a", "b"]`, `""` yields `[""]`, and `"a/"`
yields `["a", ""]` (the behaviour of Go `strings.Split`). -/
def splitSegs (sep : Char) : List Char → List (List Char)
  | [] => [[]]
  | c :: cs =>
    if c = sep then [] :: splitSegs sep cs
    else
      match splitSegs sep cs with
      | [] => [[c]]
      | s :: rest => (c :: s) :: rest

/-- Split a character list at the first occurrence of `sep`, returning the
part before and after (Go `strings.SplitN(s, sep, 2)` on success); `none`
when the separator does not occur. -/
def splitFirst (sep : Char) : List Char → Option (List Char × List Char)
  | [] => none
  | c :: cs =>
    if c = sep then some ([], cs)
    else
      match splitFirst sep cs with
      | none => none
      | some (a, b) => some (c :: a, b)

/-- Strip the leading occurrence of `pat` from `l`, returning the remainder;
`none` when `pat` is not a leading segment of `l`. -/
def stripPre : List Char → List Char → Option (List Char)
  | [], rest => some rest
  | _ :: _, [] => none
  | p :: ps, c :: cs => if c = p then stripPre ps cs else none

/-- Whether `needle` occurs contiguously inside `hay`. -/
def hasInfix (needle : List Char) : List Char → Bool
  | [] => needle.isEmpty
  | c :: cs => needle.isPrefixOf (c :: cs) || hasInfix needle cs

/-! ## Fleet sessions and the prefix registry -/

/-- Modelled from the spec: the `AgentType` role tags of a running session
(§3 `AgentSession.Type`), mutually exclusive, exactly one per session. -/
inductive AgentType
  | Mayor
  | Deacon
  | Witness
  | Refinery
  | Crew
  | Polecat
deriving DecidableEq

/-- Modelled from the spec: one running fleet member (§3 `AgentSession`).
The field `Type` of the source is named `type` here because `Type` is
reserved in Lean. -/
structure AgentSession where
  Name : String
  type : AgentType
  Rig : String := ""
  AgentName : String := ""
deriving DecidableEq

/-- Modelled from the spec: the process-wide bidirectional mapping between
short rig prefixes and full rig names (§4.1), as a list of
`(prefix, rigName)` entries in registration order. -/
structure PrefixRegistry where
  entries : List (String × String)
deriving DecidableEq

/-- Modelled from the spec: `LookupRig(prefix) -> rigName, found` (§4.1). -/
def lookupRig (reg : PrefixRegistry) (pre : String) : Option String :=
  (reg.entries.find? (fun e => e.1 == pre)).map (fun e => e.2)

/-- Modelled from the spec: `LookupPrefix(rigName) -> prefix, found` (§4.1). -/
def prefixOfRig (reg : PrefixRegistry) (rig : String) : Option String :=
  (reg.entries.find? (fun e => e.2 == rig)).map (fun e => e.1)

/-- The registry invariant of §3: the mapping is a bijection — no two
entries share a prefix and no two share a rig name (enforced by `Register`
at registration time). -/
def PrefixRegistry.WF (reg : PrefixRegistry) : Prop :=
  reg.entries.Pairwise (fun a b => a.1 ≠ b.1 ∧ a.2 ≠ b.2)

/-! ## Address resolution (forward) -/

/-- The segments of a pattern string: split on `/`. -/
def segsOf (p : String) : List String :=
  (splitSegs '/' p.data).map String.mk

/-- Modelled from the spec: match the sessions of role `t` in rig `r` with
agent name `n`, where `n = "*"` is a wildcard over agent names
(§4.2 `<rig>/crew/<name-or-*>`, `<rig>/polecats/<name-or-*>`). -/
def matchRole (t : AgentType) (r n : String) (sessions : List AgentSession) : List String :=
  if n = "*" then
    (sessions.filter (fun s => s.type == t && s.Rig == r)).map (fun s => s.Name)
  else
    (sessions.filter (fun s => s.type == t && s.Rig == r && s.AgentName == n)).map (fun s => s.Name)

/-- Modelled from the spec: resolution of an already-segmented pattern
(§4.2 forward resolution), covering `mayor`, `deacon`, `<rig>/witness`
(with rig wildcard `*/witness`), `<rig>/refinery`, `<rig>/crew/<name-or-*>`,
`<rig>/polecats/<name-or-*>`, and the legacy `<rig>/<name>` form treated
identically to `<rig>/polecats/<name>`; every other shape yields no match. -/
def resolveSegs (segs : List String) (sessions : List AgentSession) : List String :=
  match segs with
  | [x] =>
    if x = "mayor" then (sessions.filter (fun s => s.type == AgentType.Mayor)).map (fun s => s.Name)
    else if x = "deacon" then (sessions.filter (fun s => s.type == AgentType.Deacon)).map (fun s => s.Name)
    else []
  | [r, role] =>
    if role = "witness" then
      if r = "*" then (sessions.filter (fun s => s.type == AgentType.Witness)).map (fun s => s.Name)
      else (sessions.filter (fun s => s.type == AgentType.Witness && s.Rig == r)).map (fun s => s.Name)
    else if role = "refinery" then
      (sessions.filter (fun s => s.type == AgentType.Refinery && s.Rig == r)).map (fun s => s.Name)
    else if role = "crew" ∨ role = "polecats" then []
    else matchRole AgentType.Polecat r role sessions
  | [r, mid, n] =>
    if mid = "crew" then matchRole AgentType.Crew r n sessions
    else if mid = "polecats" then matchRole AgentType.Polecat r n sessions
    else []
  | _ => []

/-- Modelled from the spec: `ResolvePattern(pattern, sessions)` (§4.2),
returning the matching session names; patterns with empty segments or an
unrecognized shape yield no match (resolution is total, §4.2, §7a). -/
def resolveNudgePattern (pat : String) (sessions : List AgentSession) : List String :=
  let segs := segsOf pat
  if "" ∈ segs then [] else resolveSegs segs sessions

/-! ## Address resolution (inverse) -/

/-- Modelled from the spec: `SessionNameToAddress(name)` (§4.2 inverse
resolution): `hq-mayor`/`hq-deacon` map to `mayor`/`deacon`; otherwise the
name is split at the first dash into a rig prefix (resolved through the
registry; unknown prefix fails) and a remainder, with remainder `witness`,
`refinery`, `crew-<name>` and `<name>` mapping to the witness, refinery,
crew and legacy bare-polecat addresses; an empty remainder (bare prefix
plus dash) fails; the empty string signals "unrecognized".
This helper handles a name already split at its first dash. -/
def addrFromRig (rig : String) (restChars : List Char) : String :=
  if restChars = [] then ""
  else if String.mk restChars = "witness" then rig ++ "/witness"
  else if String.mk restChars = "refinery" then rig ++ "/refinery"
  else
    match stripPre "crew-".data restChars with
    | some n => rig ++ "/crew/" ++ String.mk n
    | none => rig ++ "/" ++ String.mk restChars

/-- The prefix half is resolved through the registry (unknown prefix
fails), the remainder half through `addrFromRig`. -/
def addrFromSplit (reg : PrefixRegistry) : Option (List Char × List Char) → String
  | none => ""
  | some (preChars, restChars) =>
    match lookupRig reg (String.mk preChars) with
    | none => ""
    | some rig => addrFromRig rig restChars

/-- Modelled from the spec: `SessionNameToAddress(name)` (§4.2 inverse
resolution), the special `hq-mayor`/`hq-deacon` cases on top of
`addrFromSplit`. -/
def sessionNameToAddress (reg : PrefixRegistry) (name : String) : String :=
  if name = "hq-mayor" then "mayor"
  else if name = "hq-deacon" then "deacon"
  else addrFromSplit reg (splitFirst '-' name.data)

/-! ## Addresses and the session naming convention -/

/-- Modelled from the spec: the closed tagged variant of addresses (§3
`Address`, §9 design notes), excluding wildcard forms. -/
inductive Address
  | mayor
  | deacon
  | witness (rig : String)
  | refinery (rig : String)
  | crew (rig name : String)
  | polecat (rig name : String)
deriving DecidableEq

/-- The human-facing string form of an `Address` (§3). -/
def renderAddress : Address → String
  | .mayor => "mayor"
  | .deacon => "deacon"
  | .witness r => r ++ "/witness"
  | .refinery r => r ++ "/refinery"
  | .crew r n => r ++ "/crew/" ++ n
  | .polecat r n => r ++ "/" ++ n

/-- Modelled from the spec: the session naming convention (§3
`AgentSession.Name` format `<prefix>-<role-token>[-<agent-name>]`, or
`hq-mayor`/`hq-deacon` for the town-level roles); `none` when the rig's
prefix is not registered. -/
def sessionNameFor (reg : PrefixRegistry) : Address → Option String
  | .mayor => some "hq-mayor"
  | .deacon => some "hq-deacon"
  | .witness r => (prefixOfRig reg r).map (fun p => p ++ "-witness")
  | .refinery r => (prefixOfRig reg r).map (fun p => p ++ "-refinery")
  | .crew r n => (prefixOfRig reg r).map (fun p => p ++ "-crew-" ++ n)
  | .polecat r n => (prefixOfRig reg r).map (fun p => p ++ "-" ++ n)

/-- The rig of the address has a registered prefix and that prefix is
dash-free (prefixes are short codes such as `gt`). -/
def GoodPrefixFor (reg : PrefixRegistry) (r : String) : Prop :=
  ∃ p, prefixOfRig reg r = some p ∧ '-' ∉ p.data

/-- Validity of an address with respect to a registry: its rig prefix is
registered and dash-free, and a legacy bare-polecat name is nonempty, is
not itself a role token, does not start with the crew marker, and does not
collide with the reserved `hq-mayor`/`hq-deacon` session names. -/
def ValidFor (reg : PrefixRegistry) : Address → Prop
  | .mayor => True
  | .deacon => True
  | .witness r => GoodPrefixFor reg r
  | .refinery r => GoodPrefixFor reg r
  | .crew r _ => GoodPrefixFor reg r
  | .polecat r n =>
      GoodPrefixFor reg r ∧ n ≠ "" ∧ n ≠ "witness" ∧ n ≠ "refinery"
      ∧ stripPre "crew-".data n.data = none
      ∧ ∀ p, prefixOfRig reg r = some p →
          p ++ "-" ++ n ≠ "hq-mayor" ∧ p ++ "-" ++ n ≠ "hq-deacon"

/-! ## Freshness gate -/

/-- Modelled from the spec: the single freshness threshold constant of the
`--if-fresh` nudge gate (§4.3), 60 seconds, expressed in nanoseconds as a
Go `time.Duration` is. -/
def ifFreshMaxAge : Int := 60 * 1000000000

/-- Modelled from the spec: `IsFresh(createdAt, now) := now - createdAt <=
threshold` (§4.3); both instants are in nanoseconds. -/
def isFresh (createdAt now : Int) : Bool :=
  decide (now - createdAt ≤ ifFreshMaxAge)

/-! ## Compliance scanner: data model -/

/-- Modelled from the spec: the role inferred for a settings file from its
path position (§3 `SettingsFile`). -/
inductive Role
  | Mayor
  | Deacon
  | Witness
  | Refinery
  | Crew
  | Polecat
deriving DecidableEq

/-- Modelled from the spec: the staleness taxonomy of a settings file
(§4.4, §3 `StaleReason`). -/
inductive StaleReason
  | WrongLocation
  | InvalidJSON
  | MissingEnabledPlugins
  | MissingHooks
  | MissingPATHExport
  | MissingDeaconNudge
  | MissingStopHook
deriving DecidableEq

/-- One hook entry of a settings file: a command string (§6 input shape
`{"type": "command", "command": str}`). -/
structure HookEntry where
  command : String
deriving DecidableEq

/-- One matcher block of a hook list (§6 input shape
`{"matcher": str, "hooks": [...]}`). -/
structure HookMatcher where
  hooks : List HookEntry
deriving DecidableEq

/-- Modelled from the spec: the parsed shape of a settings file that the
validator inspects (§6 input): presence of the top-level `enabledPlugins`
key, and the `hooks` object as an association list from hook name (such as
`SessionStart` or `Stop`) to its matcher blocks; `hooks = none` means the
`hooks` key is absent. -/
structure SettingsObj where
  enabledPluginsPresent : Bool
  hooks : Option (List (String × List HookMatcher))
deriving DecidableEq

/-- Modelled from the spec: the content of a discovered settings file —
either malformed JSON or a parsed `SettingsObj` (§3 `SettingsFile`). -/
inductive FileContent
  | invalid
  | parsed (s : SettingsObj)
deriving DecidableEq

/-- A town tree for the scanner: the settings-file candidates it can
discover, each an absolute path (as segments relative to the town root)
with its content. -/
abbrev TownFiles := List (List String × FileContent)

/-! ## Compliance scanner: location classification -/

/-- Modelled from the spec: the fixed deny-list of town-level system
directory names that are not rigs (§4.4; the test tree also treats `docs`
and `daemon` as skipped). -/
def skipDirs : List String := ["mayor", "deacon", "daemon", "docs", "lib", "tmp"]

/-- A directory name is hidden when it starts with a dot. -/
def isHiddenDir (d : String) : Bool :=
  match d.data with
  | c :: _ => c = '.'
  | [] => false

/-- Modelled from the spec: a top-level directory is skipped when it is on
the fixed deny-list or hidden (§4.4). -/
def isSkipped (d : String) : Bool :=
  skipDirs.contains d || isHiddenDir d

/-- Modelled from the spec: the location classification of a discovered
settings file (§3 `LocationStatus` together with the inferred role). -/
inductive PathClass
  | notSettings
  | correct (role : Role)
  | wrongLocation (role : Role)
deriving DecidableEq

/-- Modelled from the spec: placement rules of the scan (§4.4). Mayor at
`.claude/settings.json`, Deacon at `deacon/.claude/settings.json`; per
non-skipped rig: Witness at `<rig>/witness/rig/.claude/settings.json`,
Refinery at `<rig>/refinery/rig/.claude/settings.json`, Crew at
`<rig>/crew/<name>/.claude/settings.json`, Polecat at
`<rig>/polecats/<name>/.claude/settings.json`; and, for Witness and
Refinery only, the same path one segment shallower (missing the `rig`
segment) is the same role misplaced (`WrongLocation`). Everything else is
not a settings location. -/
def classifyPath (p : List String) : PathClass :=
  match p with
  | [a, b] =>
    if a = ".claude" ∧ b = "settings.json" then .correct .Mayor else .notSettings
  | [a, b, c] =>
    if a = "deacon" ∧ b = ".claude" ∧ c = "settings.json" then .correct .Deacon
    else .notSettings
  | [rig, role, c, d] =>
    if c = ".claude" ∧ d = "settings.json" ∧ isSkipped rig = false then
      if role = "witness" then .wrongLocation .Witness
      else if role = "refinery" then .wrongLocation .Refinery
      else .notSettings
    else .notSettings
  | [rig, role, x, c, d] =>
    if c = ".claude" ∧ d = "settings.json" ∧ isSkipped rig = false then
      if role = "witness" ∧ x = "rig" then .correct .Witness
      else if role = "refinery" ∧ x = "rig" then .correct .Refinery
      else if role = "crew" then .correct .Crew
      else if role = "polecats" then .correct .Polecat
      else .notSettings
    else .notSettings
  | _ => .notSettings

/-! ## Compliance scanner: structural validation -/

/-- Look up a hook name in the parsed `hooks` object. -/
def lookupHook (hs : List (String × List HookMatcher)) (k : String) :
    Option (List HookMatcher) :=
  (hs.find? (fun e => e.1 == k)).map (fun e => e.2)

/-- All commands of the `SessionStart` hook entries (§4.4). -/
def startCommands (hs : List (String × List HookMatcher)) : List String :=
  match lookupHook hs "SessionStart" with
  | none => []
  | some ms => (ms.map (fun m => m.hooks.map (fun h => h.command))).flatten

/-- Modelled from the spec: the two `SessionStart` checks of §4.4 — some
command must contain a PATH-export directive and some command must invoke
the deacon nudge. -/
def sessionStartReasons (hs : List (String × List HookMatcher)) : List StaleReason :=
  (if (startCommands hs).any (fun c => hasInfix "PATH=".data c.data) then []
   else [StaleReason.MissingPATHExport])
  ++ (if (startCommands hs).any (fun c => hasInfix "gt nudge deacon".data c.data) then []
      else [StaleReason.MissingDeaconNudge])

/-- Modelled from the spec: the `hooks.Stop` key must be present and
non-empty (§4.4). -/
def stopReason (hs : List (String × List HookMatcher)) : List StaleReason :=
  match lookupHook hs "Stop" with
  | some (_ :: _) => []
  | _ => [StaleReason.MissingStopHook]

/-- Modelled from the spec: structural validation of a parsed settings
object (§4.4) — required `enabledPlugins`, required `hooks`, and within it
the `SessionStart` and `Stop` conditions; each failed condition contributes
one named reason. -/
def structuralReasons (s : SettingsObj) : List StaleReason :=
  (if s.enabledPluginsPresent then [] else [StaleReason.MissingEnabledPlugins])
  ++ (match s.hooks with
      | none => [StaleReason.MissingHooks]
      | some hs => sessionStartReasons hs ++ stopReason hs)

/-- Modelled from the spec: reasons derived from content alone — a parse
failure is `InvalidJSON` and stops classification at the parse stage;
otherwise the structural checks apply (§4.4). -/
def contentReasons : FileContent → List StaleReason
  | .invalid => [StaleReason.InvalidJSON]
  | .parsed s => structuralReasons s

/-! ## Compliance scanner: scan aggregation and remediation -/

/-- Modelled from the spec: scan one discovered file — paths that are not
settings locations are not scanned; a wrongly-located file carries
`WrongLocation` in addition to (not instead of) its content reasons (§4.4). -/
def scanFile (p : List String) (c : FileContent) :
    Option (List String × List StaleReason) :=
  match classifyPath p with
  | .notSettings => none
  | .correct _ => some (p, contentReasons c)
  | .wrongLocation _ => some (p, StaleReason.WrongLocation :: contentReasons c)

/-- Modelled from the spec: the stale-file list retained by the scanner — a
scanned file is stale when its reason set is non-empty (§4.4 aggregation). -/
def staleFiles (F : TownFiles) : List (List String × List StaleReason) :=
  (F.filterMap (fun e => scanFile e.1 e.2)).filter (fun sf => !sf.2.isEmpty)

/-- Modelled from the spec: overall scan status (§3 `ScanResult`). -/
inductive CheckStatus
  | ok
  | error
deriving DecidableEq

/-- Modelled from the spec: the aggregate scan result — status, a summary
message with the stale count, and one detail line per stale file (§3
`ScanResult`). -/
structure ScanResult where
  status : CheckStatus
  message : String
  details : List String
deriving DecidableEq

/-- Join strings with a separator. -/
def joinWith (sep : String) : List String → String
  | [] => ""
  | [x] => x
  | x :: y :: ys => x ++ sep ++ joinWith sep (y :: ys)

/-- The fixed output vocabulary of reasons (§6). -/
def reasonText : StaleReason → String
  | .WrongLocation => "wrong location"
  | .InvalidJSON => "invalid JSON"
  | .MissingEnabledPlugins => "missing enabledPlugins"
  | .MissingHooks => "missing hooks"
  | .MissingPATHExport => "missing PATH export"
  | .MissingDeaconNudge => "missing deacon nudge"
  | .MissingStopHook => "missing Stop hook"

/-- One detail line per stale file, naming its path and reasons (§4.4). -/
def detailLine (p : List String) (rs : List StaleReason) : String :=
  joinWith "/" p ++ ": " ++ joinWith ", " (rs.map reasonText)

/-- Modelled from the spec: the `Run`-style scan entry point — OK iff zero
stale files exist, otherwise Error with the stale count in the summary and
one detail line per stale file (§4.4 aggregation, §6). -/
def runScan (F : TownFiles) : ScanResult :=
  let st := staleFiles F
  if st.isEmpty then
    { status := .ok, message := "Claude settings files are valid", details := [] }
  else
    { status := .error,
      message := toString st.length ++ " stale Claude settings file(s)",
      details := st.map (fun sf => detailLine sf.1 sf.2) }

/-- Whether a tree entry is a settings file whose reason set includes
`WrongLocation` — the deletion criterion of `Fix()` (§4.5). -/
def entryWrongLocated (e : List String × FileContent) : Bool :=
  match scanFile e.1 e.2 with
  | some sf => sf.2.contains StaleReason.WrongLocation
  | none => false

/-- Modelled from the spec: `Fix()` deletes exactly the files whose reason
set includes `WrongLocation`; it never rewrites or synthesizes content
(§4.5). -/
def fixTree (F : TownFiles) : TownFiles :=
  F.filter (fun e => !(entryWrongLocated e))

/-! ## Polecat branch pruning (from internal/cmd/polecat_prune.go) -/

/-- The inputs of `runPolecatPrune` once its collaborators are consulted:
the set of branches of active polecats, the local `polecat/*` branches,
whether `--remote` was given together with the `origin/polecat/*` remote
branches, and the `--dry-run` flag. -/
structure PruneInput where
  activeBranches : List String
  localBranches : List String
  remote : Bool
  remoteBranches : List String
  dryRun : Bool

/-- Counters and deletion attempts accumulated by one pruning loop of
`runPolecatPrune`. -/
structure PruneCounts where
  pruned : Nat
  kept : Nat
  attempted : List String

/-- The observable outcome of `runPolecatPrune`: the four counters of its
summary and the branch names on which `DeleteBranch` /
`DeleteRemoteBranch` were invoked. -/
structure PruneOutcome where
  localPruned : Nat
  localKept : Nat
  remotePruned : Nat
  remoteKept : Nat
  attemptedLocal : List String
  attemptedRemote : List String

/-- `strings.TrimPrefix(remoteBranch, "origin/")`: strip the `origin/`
prefix when present, else leave the name unchanged. -/
def stripOrigin (rb : String) : String :=
  if "origin/".data.isPrefixOf rb.data then String.mk (rb.data.drop 7) else rb

/-- One pruning loop of `runPolecatPrune` (lines 93–121 for local branches,
140–169 for remote ones): an active branch is kept; otherwise in dry-run
the branch is only counted as would-prune, and in a real run the deletion
is attempted and counted as pruned when it succeeds (`ok b`); failed
deletions are reported but do not abort the loop. -/
def pruneLoop (active : List String) (dryRun : Bool) (ok : String → Bool) :
    List String → PruneCounts
  | [] => { pruned := 0, kept := 0, attempted := [] }
  | b :: bs =>
    let rest := pruneLoop active dryRun ok bs
    if active.contains b then { rest with kept := rest.kept + 1 }
    else if dryRun then { rest with pruned := rest.pruned + 1 }
    else if ok b then { rest with pruned := rest.pruned + 1, attempted := b :: rest.attempted }
    else { rest with attempted := b :: rest.attempted }

/-- `runPolecatPrune` (polecat_prune.go): prune the local `polecat/*`
branches, and, when `--remote` is set, the remote `origin/polecat/*`
branches after stripping the `origin/` prefix before the membership test
and deletion; `lok`/`rok` tell which deletions succeed. -/
def runPolecatPrune (inp : PruneInput) (lok rok : String → Bool) : PruneOutcome :=
  let L := pruneLoop inp.activeBranches inp.dryRun lok inp.localBranches
  let R :=
    if inp.remote then
      pruneLoop inp.activeBranches inp.dryRun rok (inp.remoteBranches.map stripOrigin)
    else { pruned := 0, kept := 0, attempted := [] }
  { localPruned := L.pruned, localKept := L.kept,
    remotePruned := R.pruned, remoteKept := R.kept,
    attemptedLocal := L.attempted, attemptedRemote := R.attempted }

/-- The shapes the pattern grammar of §4.2 does not recognize: a wrong
segment count (zero or more than three segments), an empty segment, a
single segment other than `mayor`/`deacon`, or a three-segment pattern
whose middle segment is not the `crew`/`polecats` role keyword. -/
def badShape (segs : List String) : Bool :=
  match segs with
  | [x] => !(x == "mayor" || x == "deacon")
  | [a, b] => a == "" || b == ""
  | [a, b, c] => a == "" || b == "" || c == "" || !(b == "crew" || b == "polecats")
  | _ => true

/-- The session-name formats the inverse resolution of §4.2 does not
recognize (`badShape`'s counterpart for names): a name, other than the
special `hq-mayor`/`hq-deacon` ones, that has no dash at all (such as
`plaintext`), whose prefix before the first dash is not registered, or
whose remainder after the first dash is empty (a bare prefix plus dash). -/
def badName (reg : PrefixRegistry) (name : String) : Bool :=
  !(name == "hq-mayor") && !(name == "hq-deacon")
  && match splitFirst '-' name.data with
     | none => true
     | some (preChars, restChars) =>
       (lookupRig reg (String.mk preChars)).isNone || restChars.isEmpty

/-! ## Helper lemmas -/

theorem splitSegs_append (sep : Char) (p s : List Char) (h : sep ∉ p) :
    splitSegs sep (p ++ sep :: s) = p :: splitSegs sep s := by
  induction p with
  | nil => simp [splitSegs]
  | cons c cs ih =>
    have hc : ¬ c = sep := by
      intro hcs
      exact h (hcs ▸ List.mem_cons_self c cs)
    have hcs : sep ∉ cs := fun hm => h (List.mem_cons_of_mem _ hm)
    simp only [List.cons_append, splitSegs, if_neg hc, List.append_eq]
    rw [ih hcs]

theorem splitSegs_no_sep (sep : Char) (l : List Char) (h : sep ∉ l) :
    splitSegs sep l = [l] := by
  induction l with
  | nil => rfl
  | cons c cs ih =>
    have hc : ¬ c = sep := by
      intro hcs
      exact h (hcs ▸ List.mem_cons_self c cs)
    have hcs : sep ∉ cs := fun hm => h (List.mem_cons_of_mem _ hm)
    simp only [splitSegs, if_neg hc, ih hcs]

theorem splitFirst_append (sep : Char) (p s : List Char) (h : sep ∉ p) :
    splitFirst sep (p ++ sep :: s) = some (p, s) := by
  induction p with
  | nil => simp [splitFirst]
  | cons c cs ih =>
    have hc : ¬ c = sep := by
      intro hcs
      exact h (hcs ▸ List.mem_cons_self c cs)
    have hcs : sep ∉ cs := fun hm => h (List.mem_cons_of_mem _ hm)
    simp only [List.cons_append, splitFirst, if_neg hc, List.append_eq]
    rw [ih hcs]

theorem stripPre_append (p rest : List Char) : stripPre p (p ++ rest) = some rest := by
  induction p with
  | nil => rfl
  | cons c cs ih => simp [stripPre, ih]

theorem isPrefixOf_append (l t : List Char) : l.isPrefixOf (l ++ t) = true := by
  induction l with
  | nil => simp [List.isPrefixOf]
  | cons c cs ih => simp [List.isPrefixOf, ih]

theorem hasInfix_append (n x y : List Char) : hasInfix n (x ++ (n ++ y)) = true := by
  induction x with
  | nil =>
    cases n with
    | nil =>
      cases y with
      | nil => rfl
      | cons c cs => simp [hasInfix, List.isPrefixOf]
    | cons c cs =>
      simp only [List.nil_append, List.cons_append, hasInfix]
      have := isPrefixOf_append (c :: cs) y
      simp only [List.cons_append] at this
      simp [this]
  | cons c cs ih =>
    simp only [List.cons_append, hasInfix, List.append_eq, ih, Bool.or_true]

theorem string_data_append (s t : String) : (s ++ t).data = s.data ++ t.data := by
  cases s
  cases t
  rfl

theorem string_mk_data (s : String) : String.mk s.data = s := by
  cases s
  rfl

theorem string_data_eq_nil (s : String) : s.data = [] ↔ s = "" := by
  constructor
  · intro h
    calc s = String.mk s.data := (string_mk_data s).symm
    _ = String.mk [] := by rw [h]
    _ = "" := rfl
  · intro h
    rw [h]


theorem lookupRig_prefixOfRig (reg : PrefixRegistry) (hwf : reg.WF) (r p : String)
    (h : prefixOfRig reg r = some p) : lookupRig reg p = some r := by
  obtain ⟨l⟩ := reg
  unfold PrefixRegistry.WF at hwf
  unfold prefixOfRig at h
  unfold lookupRig
  simp only at hwf h ⊢
  induction l with
  | nil => simp at h
  | cons e es ih =>
    rw [List.pairwise_cons] at hwf
    by_cases he : e.2 = r
    · rw [List.find?_cons_of_pos _ (by simp [he])] at h
      simp only [Option.map_some'] at h
      have hp : e.1 = p := Option.some.inj h
      rw [List.find?_cons_of_pos _ (by simp [hp])]
      simp [he]
    · rw [List.find?_cons_of_neg _ (by simp [he])] at h
      have hres := ih hwf.2 h
      obtain ⟨b, hfind⟩ : ∃ b, es.find? (fun e => e.2 == r) = some b := by
        cases hval : es.find? (fun e => e.2 == r) with
        | none => rw [hval] at h; simp at h
        | some b => exact ⟨b, rfl⟩
      have hbmem := List.mem_of_find?_eq_some hfind
      have hbp : b.1 = p := by
        rw [hfind] at h
        simpa using h
      have hne : e.1 ≠ p := hbp ▸ (hwf.1 b hbmem).1
      rw [List.find?_cons_of_neg _ (by simp [hne])]
      exact hres


/-! ## Claims -/

/-- C8: the freshness threshold constant equals exactly 60 seconds, and
`isFresh createdAt now` is true iff `now - createdAt ≤ 60s`, inclusive at
the boundary: an age of exactly 60s is fresh and an age of 60s plus one
nanosecond is stale. -/
theorem claim_C8_freshness :
    ifFreshMaxAge = 60 * 1000000000
    ∧ (∀ createdAt now : Int,
        isFresh createdAt now = true ↔ now - createdAt ≤ 60 * 1000000000)
    ∧ (∀ createdAt now : Int,
        now - createdAt = 60 * 1000000000 → isFresh createdAt now = true)
    ∧ (∀ createdAt now : Int,
        now - createdAt = 60 * 1000000000 + 1 → isFresh createdAt now = false) := by
  refine ⟨rfl, ?_, ?_, ?_⟩
  · intro c n
    simp [isFresh, ifFreshMaxAge]
  · intro c n h
    simp [isFresh, ifFreshMaxAge, h]
  · intro c n h
    simp only [isFresh, ifFreshMaxAge, h]
    norm_num

/-- Witness for C8 at a concrete input: an age of exactly 60s is fresh and
60s plus one nanosecond is stale. -/
theorem claim_C8_freshness_witness :
    isFresh 0 60000000000 = true ∧ isFresh 0 60000000001 = false :=
  ⟨claim_C8_freshness.2.2.1 0 60000000000 (by norm_num),
   claim_C8_freshness.2.2.2 0 60000000001 (by norm_num)⟩

/-- C2: for every session list `S`, `ResolvePattern("*/witness", S)` returns
exactly the names of the sessions in `S` whose type is Witness, across all
rigs — no session of any other role is included and no Witness session is
omitted. -/
theorem claim_C2_witness_wildcard (S : List AgentSession) :
    resolveNudgePattern "*/witness" S
      = (S.filter (fun s => s.type == AgentType.Witness)).map (fun s => s.Name)
    ∧ ∀ nm, nm ∈ resolveNudgePattern "*/witness" S ↔
        ∃ s ∈ S, s.type = AgentType.Witness ∧ s.Name = nm := by
  have h : resolveNudgePattern "*/witness" S
      = (S.filter (fun s => s.type == AgentType.Witness)).map (fun s => s.Name) := rfl
  refine ⟨h, ?_⟩
  intro nm
  rw [h]
  simp only [List.mem_map, List.mem_filter, beq_iff_eq]
  constructor
  · rintro ⟨s, ⟨hs, ht⟩, hn⟩
    exact ⟨s, hs, by simpa using ht, hn⟩
  · rintro ⟨s, hs, ht, hn⟩
    exact ⟨s, ⟨hs, by simpa using ht⟩, hn⟩

theorem pruneLoop_kept (active : List String) (dr : Bool) (ok : String → Bool)
    (l : List String) :
    (pruneLoop active dr ok l).kept
      = (l.filter (fun b => active.contains b)).length := by
  induction l with
  | nil => rfl
  | cons b bs ih =>
    by_cases hb : b ∈ active
    · simp [pruneLoop, hb, ih]
    · cases dr with
      | true => simp [pruneLoop, hb, ih]
      | false =>
        by_cases hok : ok b = true
        · simp [pruneLoop, hb, hok, ih]
        · rw [Bool.not_eq_true] at hok
          simp [pruneLoop, hb, hok, ih]

theorem pruneLoop_attempted_not_dry (active : List String) (ok : String → Bool)
    (l : List String) :
    (pruneLoop active false ok l).attempted
      = l.filter (fun b => !(active.contains b)) := by
  induction l with
  | nil => rfl
  | cons b bs ih =>
    by_cases hb : b ∈ active
    · simp [pruneLoop, hb, ih]
    · by_cases hok : ok b = true
      · simp [pruneLoop, hb, hok, ih]
      · rw [Bool.not_eq_true] at hok
        simp [pruneLoop, hb, hok, ih]

theorem pruneLoop_attempted_dry (active : List String) (ok : String → Bool)
    (l : List String) :
    (pruneLoop active true ok l).attempted = [] := by
  induction l with
  | nil => rfl
  | cons b bs ih =>
    by_cases hb : b ∈ active
    · simp [pruneLoop, hb, ih]
    · simp [pruneLoop, hb, ih]

theorem pruneLoop_pruned_dry (active : List String) (ok : String → Bool)
    (l : List String) :
    (pruneLoop active true ok l).pruned
      = (l.filter (fun b => !(active.contains b))).length := by
  induction l with
  | nil => rfl
  | cons b bs ih =>
    by_cases hb : b ∈ active
    · simp [pruneLoop, hb, ih]
    · simp [pruneLoop, hb, ih]

theorem pruneLoop_pruned_allok (active : List String) (l : List String) :
    (pruneLoop active false (fun _ => true) l).pruned
      = (l.filter (fun b => !(active.contains b))).length := by
  induction l with
  | nil => rfl
  | cons b bs ih =>
    by_cases hb : b ∈ active
    · simp [pruneLoop, hb, ih]
    · simp [pruneLoop, hb, ih]

/-- C9: in a real (non-dry-run) run, `runPolecatPrune` attempts deletion of
exactly the listed local `polecat/*` branches that are not in the active
set and never deletes an active branch; the same holds for remote branches
after the `origin/` prefix is stripped before the membership test. -/
theorem claim_C9_prune_set_difference (inp : PruneInput) (lok rok : String → Bool) :
    (runPolecatPrune { inp with dryRun := false } lok rok).attemptedLocal
        = inp.localBranches.filter (fun b => !(inp.activeBranches.contains b))
    ∧ (∀ b ∈ (runPolecatPrune { inp with dryRun := false } lok rok).attemptedLocal,
        b ∉ inp.activeBranches)
    ∧ (runPolecatPrune { inp with dryRun := false } lok rok).attemptedRemote
        = (if inp.remote then
            (inp.remoteBranches.map stripOrigin).filter
              (fun b => !(inp.activeBranches.contains b))
           else [])
    ∧ ∀ b ∈ (runPolecatPrune { inp with dryRun := false } lok rok).attemptedRemote,
        b ∉ inp.activeBranches := by
  have hl : (runPolecatPrune { inp with dryRun := false } lok rok).attemptedLocal
      = inp.localBranches.filter (fun b => !(inp.activeBranches.contains b)) := by
    simp only [runPolecatPrune]
    exact pruneLoop_attempted_not_dry ..
  have hr : (runPolecatPrune { inp with dryRun := false } lok rok).attemptedRemote
      = (if inp.remote then
          (inp.remoteBranches.map stripOrigin).filter
            (fun b => !(inp.activeBranches.contains b))
         else []) := by
    simp only [runPolecatPrune]
    by_cases h : inp.remote = true
    · simp only [h, if_true]
      exact pruneLoop_attempted_not_dry ..
    · rw [Bool.not_eq_true] at h
      simp [h]
  refine ⟨hl, ?_, hr, ?_⟩
  · intro b hb
    rw [hl, List.mem_filter] at hb
    simpa using hb.2
  · intro b hb
    rw [hr] at hb
    by_cases h : inp.remote = true
    · rw [h, if_pos rfl, List.mem_filter] at hb
      simpa using hb.2
    · rw [Bool.not_eq_true] at h
      rw [h] at hb
      simp at hb

/-- C10: with the dry-run flag set, `runPolecatPrune` invokes no deletion at
all — both attempted-deletion lists are empty, so the branch sets are
unchanged — while the reported would-prune and keep counts equal those of a
real run in which every deletion succeeds. -/
theorem claim_C10_dry_run (inp : PruneInput) (lok rok : String → Bool) :
    (runPolecatPrune { inp with dryRun := true } lok rok).attemptedLocal = []
    ∧ (runPolecatPrune { inp with dryRun := true } lok rok).attemptedRemote = []
    ∧ (runPolecatPrune { inp with dryRun := true } lok rok).localPruned
        = (runPolecatPrune { inp with dryRun := false }
            (fun _ => true) (fun _ => true)).localPruned
    ∧ (runPolecatPrune { inp with dryRun := true } lok rok).localKept
        = (runPolecatPrune { inp with dryRun := false }
            (fun _ => true) (fun _ => true)).localKept
    ∧ (runPolecatPrune { inp with dryRun := true } lok rok).remotePruned
        = (runPolecatPrune { inp with dryRun := false }
            (fun _ => true) (fun _ => true)).remotePruned
    ∧ (runPolecatPrune { inp with dryRun := true } lok rok).remoteKept
        = (runPolecatPrune { inp with dryRun := false }
            (fun _ => true) (fun _ => true)).remoteKept := by
  refine ⟨?_, ?_, ?_, ?_, ?_, ?_⟩
  · simp only [runPolecatPrune]
    exact pruneLoop_attempted_dry ..
  · simp only [runPolecatPrune]
    by_cases h : inp.remote = true
    · simp only [h, if_true]
      exact pruneLoop_attempted_dry ..
    · rw [Bool.not_eq_true] at h
      simp [h]
  · simp only [runPolecatPrune]
    rw [pruneLoop_pruned_dry, pruneLoop_pruned_allok]
  · simp only [runPolecatPrune]
    rw [pruneLoop_kept, pruneLoop_kept]
  · simp only [runPolecatPrune]
    by_cases h : inp.remote = true
    · simp only [h, if_true]
      rw [pruneLoop_pruned_dry, pruneLoop_pruned_allok]
    · rw [Bool.not_eq_true] at h
      simp [h]
  · simp only [runPolecatPrune]
    by_cases h : inp.remote = true
    · simp only [h, if_true]
      rw [pruneLoop_kept, pruneLoop_kept]
    · rw [Bool.not_eq_true] at h
      simp [h]

theorem segsOf_legacy (r n : String) (hr : '/' ∉ r.data) (hn : '/' ∉ n.data) :
    segsOf (r ++ "/" ++ n) = [r, n] := by
  unfold segsOf
  rw [string_data_append, string_data_append]
  have hsplit : r.data ++ "/".data ++ n.data = r.data ++ '/' :: n.data := by
    rw [List.append_assoc]
    rfl
  rw [hsplit, splitSegs_append '/' r.data _ hr, splitSegs_no_sep '/' n.data hn]
  simp [string_mk_data]

theorem segsOf_polecats (r n : String) (hr : '/' ∉ r.data) (hn : '/' ∉ n.data) :
    segsOf (r ++ "/polecats/" ++ n) = [r, "polecats", n] := by
  unfold segsOf
  rw [string_data_append, string_data_append]
  have hsplit : r.data ++ "/polecats/".data ++ n.data
      = r.data ++ '/' :: ("polecats".data ++ '/' :: n.data) := by
    rw [List.append_assoc]
    rfl
  rw [hsplit, splitSegs_append '/' r.data _ hr]
  have hp : '/' ∉ "polecats".data := by decide
  rw [splitSegs_append '/' "polecats".data _ hp, splitSegs_no_sep '/' n.data hn]
  simp [string_mk_data]

/-- C5: a legacy pattern `r/n`, with `n` not a recognized role keyword, is
resolved identically to `r/polecats/n` — both denote the polecat of rig `r`
named `n`. -/
theorem claim_C5_legacy_polecat (r n : String) (S : List AgentSession)
    (hr : '/' ∉ r.data) (hn : '/' ∉ n.data)
    (h3 : n ≠ "witness") (h4 : n ≠ "refinery") (h5 : n ≠ "crew") (h6 : n ≠ "polecats") :
    resolveNudgePattern (r ++ "/" ++ n) S
      = resolveNudgePattern (r ++ "/polecats/" ++ n) S := by
  unfold resolveNudgePattern
  rw [segsOf_legacy r n hr hn, segsOf_polecats r n hr hn]
  by_cases hmem : ("" : String) ∈ [r, n]
  · have hmem' : ("" : String) ∈ [r, "polecats", n] := by
      rcases List.mem_cons.mp hmem with h | h
      · subst h
        simp
      · rcases List.mem_cons.mp h with h1 | h1
        · subst h1
          simp
        · simp at h1
    rw [if_pos hmem, if_pos hmem']
  · have hmem' : ("" : String) ∉ [r, "polecats", n] := by
      intro h
      apply hmem
      rcases List.mem_cons.mp h with h1 | h1
      · exact List.mem_cons.mpr (Or.inl h1)
      · rcases List.mem_cons.mp h1 with h2 | h2
        · exact absurd h2 (by decide)
        · exact List.mem_cons.mpr (Or.inr h2)
    rw [if_neg hmem, if_neg hmem']
    simp only [resolveSegs]
    rw [if_neg h3, if_neg h4, if_neg (fun h => h.elim h5 h6)]
    simp

/-- Witness for C5 at a concrete input: the legacy pattern `gastown/alpha`
resolves exactly as `gastown/polecats/alpha` does. -/
theorem claim_C5_legacy_polecat_witness :
    resolveNudgePattern ("gastown" ++ "/" ++ "alpha")
        [{ Name := "gt-alpha", type := .Polecat, Rig := "gastown", AgentName := "alpha" }]
      = resolveNudgePattern ("gastown" ++ "/polecats/" ++ "alpha")
        [{ Name := "gt-alpha", type := .Polecat, Rig := "gastown", AgentName := "alpha" }] :=
  claim_C5_legacy_polecat "gastown" "alpha" _
    (by decide) (by decide) (by decide) (by decide) (by decide) (by decide)

theorem resolveSegs_badShape (segs : List String) (S : List AgentSession)
    (hb : badShape segs = true) (hne : ("" : String) ∉ segs) :
    resolveSegs segs S = [] := by
  match segs with
  | [] => rfl
  | [x] =>
    have hx1 : ¬ x = "mayor" := by
      intro h
      subst h
      simp [badShape] at hb
    have hx2 : ¬ x = "deacon" := by
      intro h
      subst h
      simp [badShape] at hb
    simp only [resolveSegs, if_neg hx1, if_neg hx2]
  | [a, b] =>
    have hb' : a = "" ∨ b = "" := by simpa [badShape] using hb
    rcases hb' with h | h
    · subst h
      exact absurd (by simp) hne
    · subst h
      exact absurd (by simp) hne
  | [a, b, c] =>
    have hemp : ∀ s ∈ [a, b, c], s ≠ "" := fun s hs h => hne (h ▸ hs)
    have ha : (a == "") = false := beq_eq_false_iff_ne.mpr (hemp a (by simp))
    have hbe : (b == "") = false := beq_eq_false_iff_ne.mpr (hemp b (by simp))
    have hce : (c == "") = false := beq_eq_false_iff_ne.mpr (hemp c (by simp))
    simp only [badShape, ha, hbe, hce, Bool.false_or, Bool.not_eq_true',
      Bool.or_eq_false_iff, beq_eq_false_iff_ne, ne_eq] at hb
    simp only [resolveSegs, if_neg hb.1, if_neg hb.2]
  | _ :: _ :: _ :: _ :: _ => rfl

/-- C6: forward and inverse resolution are total and silent on unrecognized
input: every pattern whose segment list has a bad shape (wrong segment
count, empty segment, unknown role keyword) resolves to no match for every
session list; every session name of unrecognized format — no dash at all,
an unregistered prefix before the first dash, or an empty remainder after
it — translates to the empty string; in particular a name that is only a
bare prefix followed by a dash with nothing after it does. -/
theorem claim_C6_totality (reg : PrefixRegistry) :
    (∀ p S, badShape (segsOf p) = true → resolveNudgePattern p S = [])
    ∧ (∀ name, badName reg name = true → sessionNameToAddress reg name = "")
    ∧ ∀ pre, '-' ∉ pre.data → sessionNameToAddress reg (pre ++ "-") = "" := by
  have hinv : ∀ name, badName reg name = true → sessionNameToAddress reg name = "" := by
    intro name h
    unfold badName at h
    simp only [Bool.and_eq_true, Bool.not_eq_true', beq_eq_false_iff_ne, ne_eq] at h
    obtain ⟨⟨hne1, hne2⟩, h3⟩ := h
    unfold sessionNameToAddress
    rw [if_neg hne1, if_neg hne2]
    cases hsp : splitFirst '-' name.data with
    | none => rfl
    | some pr =>
      obtain ⟨preChars, restChars⟩ := pr
      simp only [hsp] at h3
      by_cases hn : (lookupRig reg (String.mk preChars)).isNone = true
      · have hlk : lookupRig reg (String.mk preChars) = none :=
          Option.isNone_iff_eq_none.mp hn
        simp only [addrFromSplit]
        rw [hlk]
      · have hre : restChars = [] := by
          cases hres : restChars.isEmpty with
          | true => exact List.isEmpty_iff.mp hres
          | false =>
            rw [Bool.not_eq_true] at hn
            rw [hn, hres] at h3
            exact absurd h3 (by decide)
        subst hre
        simp only [addrFromSplit]
        cases hlk : lookupRig reg (String.mk preChars) with
        | none => rfl
        | some rig => rfl
  refine ⟨?_, hinv, ?_⟩
  · intro p S h
    unfold resolveNudgePattern
    by_cases hmem : ("" : String) ∈ segsOf p
    · rw [if_pos hmem]
    · rw [if_neg hmem]
      exact resolveSegs_badShape _ S h hmem
  · intro pre hpre
    apply hinv
    have hdata : (pre ++ "-").data = pre.data ++ '-' :: [] := by
      rw [string_data_append]
    have hsplit : splitFirst '-' ((pre ++ "-").data) = some (pre.data, []) := by
      rw [hdata]
      exact splitFirst_append '-' pre.data [] hpre
    have hne1 : pre ++ "-" ≠ "hq-mayor" := by
      intro h
      rw [h] at hsplit
      have hev : splitFirst '-' "hq-mayor".data = some ("hq".data, "mayor".data) := by decide
      rw [hev] at hsplit
      have h2 : "mayor".data = ([] : List Char) := congrArg Prod.snd (Option.some.inj hsplit)
      exact absurd h2 (by decide)
    have hne2 : pre ++ "-" ≠ "hq-deacon" := by
      intro h
      rw [h] at hsplit
      have hev : splitFirst '-' "hq-deacon".data = some ("hq".data, "deacon".data) := by decide
      rw [hev] at hsplit
      have h2 : "deacon".data = ([] : List Char) := congrArg Prod.snd (Option.some.inj hsplit)
      exact absurd h2 (by decide)
    unfold badName
    have hsplit2 : splitFirst '-' (pre.data ++ ['-']) = some (pre.data, []) :=
      splitFirst_append '-' pre.data [] hpre
    simp [hsplit, hsplit2, hne1, hne2]

/-- Witness for C6 at concrete inputs: the pattern `invalid` resolves to no
match, while the dash-free name `plaintext`, the unknown-prefix name
`zz-alpha`, and the bare-prefix name `gt-` all translate to the empty
string. -/
theorem claim_C6_totality_witness :
    resolveNudgePattern "invalid" [] = []
    ∧ sessionNameToAddress ⟨[("gt", "gastown")]⟩ "plaintext" = ""
    ∧ sessionNameToAddress ⟨[("gt", "gastown")]⟩ "zz-alpha" = ""
    ∧ sessionNameToAddress ⟨[("gt", "gastown")]⟩ ("gt" ++ "-") = "" :=
  ⟨(claim_C6_totality ⟨[("gt", "gastown")]⟩).1 "invalid" [] (by decide),
   (claim_C6_totality ⟨[("gt", "gastown")]⟩).2.1 "plaintext" (by decide),
   (claim_C6_totality ⟨[("gt", "gastown")]⟩).2.1 "zz-alpha" (by decide),
   (claim_C6_totality ⟨[("gt", "gastown")]⟩).2.2 "gt" (by decide)⟩

theorem addrFromSplit_lookup (reg : PrefixRegistry) (a b : List Char) (rig : String)
    (h : lookupRig reg (String.mk a) = some rig) :
    addrFromSplit reg (some (a, b)) = addrFromRig rig b := by
  simp only [addrFromSplit]
  rw [h]

theorem ne_hq_mayor (nm : String) (pd rest : List Char)
    (hsplit : splitFirst '-' nm.data = some (pd, rest))
    (hwit : rest ≠ "mayor".data) : nm ≠ "hq-mayor" := by
  intro h
  rw [h] at hsplit
  rw [(by decide : splitFirst '-' "hq-mayor".data = some ("hq".data, "mayor".data))] at hsplit
  exact hwit (congrArg Prod.snd (Option.some.inj hsplit)).symm

theorem ne_hq_deacon (nm : String) (pd rest : List Char)
    (hsplit : splitFirst '-' nm.data = some (pd, rest))
    (hwit : rest ≠ "deacon".data) : nm ≠ "hq-deacon" := by
  intro h
  rw [h] at hsplit
  rw [(by decide : splitFirst '-' "hq-deacon".data = some ("hq".data, "deacon".data))] at hsplit
  exact hwit (congrArg Prod.snd (Option.some.inj hsplit)).symm

/-- C1: the round-trip property of the resolver — for every valid
non-wildcard address (mayor, deacon, rig witness, rig refinery, rig crew
member), `sessionNameToAddress` applied to the session name produced by the
naming convention yields exactly the rendered address; the legacy
bare-polecat address is returned in the same bare form `<rig>/<name>` (the
collapse is by design), assuming the rig's prefix is registered. -/
theorem claim_C1_round_trip (reg : PrefixRegistry) (hwf : reg.WF) (a : Address)
    (ha : ValidFor reg a) (nm : String) (hnm : sessionNameFor reg a = some nm) :
    sessionNameToAddress reg nm = renderAddress a := by
  cases a with
  | mayor =>
    have h := Option.some.inj hnm
    subst h
    rfl
  | deacon =>
    have h := Option.some.inj hnm
    subst h
    rfl
  | witness r =>
    obtain ⟨p, hp, hpd⟩ := ha
    simp only [sessionNameFor, hp, Option.map_some'] at hnm
    have h := Option.some.inj hnm
    subst h
    have hdata : (p ++ "-witness").data = p.data ++ '-' :: "witness".data := by
      rw [string_data_append]
    have hsplit : splitFirst '-' (p ++ "-witness").data
        = some (p.data, "witness".data) := by
      rw [hdata]
      exact splitFirst_append '-' p.data _ hpd
    unfold sessionNameToAddress
    rw [if_neg (ne_hq_mayor _ _ _ hsplit (by decide)),
      if_neg (ne_hq_deacon _ _ _ hsplit (by decide)), hsplit,
      addrFromSplit_lookup reg p.data _ r
        (by rw [string_mk_data]; exact lookupRig_prefixOfRig reg hwf r p hp)]
    unfold addrFromRig
    rw [if_neg (by decide), if_pos (by decide)]
    rfl
  | refinery r =>
    obtain ⟨p, hp, hpd⟩ := ha
    simp only [sessionNameFor, hp, Option.map_some'] at hnm
    have h := Option.some.inj hnm
    subst h
    have hdata : (p ++ "-refinery").data = p.data ++ '-' :: "refinery".data := by
      rw [string_data_append]
    have hsplit : splitFirst '-' (p ++ "-refinery").data
        = some (p.data, "refinery".data) := by
      rw [hdata]
      exact splitFirst_append '-' p.data _ hpd
    unfold sessionNameToAddress
    rw [if_neg (ne_hq_mayor _ _ _ hsplit (by decide)),
      if_neg (ne_hq_deacon _ _ _ hsplit (by decide)), hsplit,
      addrFromSplit_lookup reg p.data _ r
        (by rw [string_mk_data]; exact lookupRig_prefixOfRig reg hwf r p hp)]
    unfold addrFromRig
    rw [if_neg (by decide), if_neg (by decide), if_pos (by decide)]
    rfl
  | crew r n =>
    obtain ⟨p, hp, hpd⟩ := ha
    simp only [sessionNameFor, hp, Option.map_some'] at hnm
    have h := Option.some.inj hnm
    subst h
    have hdata : (p ++ "-crew-" ++ n).data
        = p.data ++ '-' :: ("crew-".data ++ n.data) := by
      rw [string_data_append, string_data_append, List.append_assoc]
      rfl
    have hsplit : splitFirst '-' (p ++ "-crew-" ++ n).data
        = some (p.data, "crew-".data ++ n.data) := by
      rw [hdata]
      exact splitFirst_append '-' p.data _ hpd
    have hrest1 : "crew-".data ++ n.data ≠ "mayor".data := by
      intro h
      injection h with h1 _
      exact absurd h1 (by decide)
    have hrest2 : "crew-".data ++ n.data ≠ "deacon".data := by
      intro h
      injection h with h1 _
      exact absurd h1 (by decide)
    unfold sessionNameToAddress
    rw [if_neg (ne_hq_mayor _ _ _ hsplit hrest1),
      if_neg (ne_hq_deacon _ _ _ hsplit hrest2), hsplit,
      addrFromSplit_lookup reg p.data _ r
        (by rw [string_mk_data]; exact lookupRig_prefixOfRig reg hwf r p hp)]
    unfold addrFromRig
    have hc1 : ¬ ("crew-".data ++ n.data = []) := by
      intro h
      injection h
    have hc2 : ¬ (String.mk ("crew-".data ++ n.data) = "witness") := by
      intro h
      have h2 : "crew-".data ++ n.data = "witness".data := congrArg String.data h
      injection h2 with h1 _
      exact absurd h1 (by decide)
    have hc3 : ¬ (String.mk ("crew-".data ++ n.data) = "refinery") := by
      intro h
      have h2 : "crew-".data ++ n.data = "refinery".data := congrArg String.data h
      injection h2 with h1 _
      exact absurd h1 (by decide)
    rw [if_neg hc1, if_neg hc2, if_neg hc3, stripPre_append "crew-".data n.data]
    show r ++ "/crew/" ++ String.mk n.data = renderAddress (Address.crew r n)
    rw [string_mk_data]
    rfl
  | polecat r n =>
    obtain ⟨⟨p, hp, hpd⟩, hne, hw, hrf, hcrew, hhq⟩ := ha
    simp only [sessionNameFor, hp, Option.map_some'] at hnm
    have h := Option.some.inj hnm
    subst h
    have hdata : (p ++ "-" ++ n).data = p.data ++ '-' :: n.data := by
      rw [string_data_append, string_data_append, List.append_assoc]
      rfl
    have hsplit : splitFirst '-' (p ++ "-" ++ n).data = some (p.data, n.data) := by
      rw [hdata]
      exact splitFirst_append '-' p.data _ hpd
    unfold sessionNameToAddress
    rw [if_neg (hhq p hp).1, if_neg (hhq p hp).2, hsplit,
      addrFromSplit_lookup reg p.data _ r
        (by rw [string_mk_data]; exact lookupRig_prefixOfRig reg hwf r p hp)]
    unfold addrFromRig
    rw [if_neg (fun h => hne ((string_data_eq_nil n).mp h)),
      if_neg (by rw [string_mk_data]; exact hw),
      if_neg (by rw [string_mk_data]; exact hrf), hcrew, string_mk_data]
    rfl

/-- Witness for C1 at a concrete input: with `gt ↔ gastown` registered, the
session name of the address `gastown/witness` is `gt-witness` and it
translates back to `gastown/witness`; likewise the legacy polecat
`gastown/alpha` round-trips through `gt-alpha` to its same bare form. -/
theorem claim_C1_round_trip_witness :
    sessionNameToAddress ⟨[("gt", "gastown")]⟩ "gt-witness"
        = renderAddress (Address.witness "gastown")
    ∧ sessionNameToAddress ⟨[("gt", "gastown")]⟩ "gt-alpha"
        = renderAddress (Address.polecat "gastown" "alpha") :=
  ⟨claim_C1_round_trip ⟨[("gt", "gastown")]⟩ (by simp [PrefixRegistry.WF])
      (Address.witness "gastown") ⟨"gt", by decide, by decide⟩ "gt-witness" (by decide),
   claim_C1_round_trip ⟨[("gt", "gastown")]⟩ (by simp [PrefixRegistry.WF])
      (Address.polecat "gastown" "alpha")
      ⟨⟨"gt", by decide, by decide⟩, by decide, by decide, by decide, by decide,
        fun p hp => by
          have : p = "gt" := by
            have := Option.some.inj hp
            simp at this
            exact this.symm
          subst this
          exact ⟨by decide, by decide⟩⟩
      "gt-alpha" (by decide)⟩

theorem wrongLocation_not_mem_structural (s : SettingsObj) :
    StaleReason.WrongLocation ∉ structuralReasons s := by
  intro h
  unfold structuralReasons at h
  rw [List.mem_append] at h
  rcases h with h | h
  · split at h
    · exact absurd h (List.not_mem_nil _)
    · simp at h
  · split at h
    · simp at h
    · rw [List.mem_append] at h
      rcases h with h | h
      · unfold sessionStartReasons at h
        rw [List.mem_append] at h
        rcases h with h | h
        · split at h
          · exact absurd h (List.not_mem_nil _)
          · simp at h
        · split at h
          · exact absurd h (List.not_mem_nil _)
          · simp at h
      · unfold stopReason at h
        split at h
        · exact absurd h (List.not_mem_nil _)
        · simp at h

theorem wrongLocation_not_mem_contentReasons (c : FileContent) :
    StaleReason.WrongLocation ∉ contentReasons c := by
  cases c with
  | invalid => simp [contentReasons]
  | parsed s => exact wrongLocation_not_mem_structural s

theorem entryWrongLocated_correct (p : List String) (c : FileContent) (ro : Role)
    (h : classifyPath p = PathClass.correct ro) : entryWrongLocated (p, c) = false := by
  have hs : scanFile p c = some (p, contentReasons c) := by
    unfold scanFile
    rw [h]
  unfold entryWrongLocated
  rw [hs]
  simpa using wrongLocation_not_mem_contentReasons c

theorem entryWrongLocated_wrong (p : List String) (c : FileContent) (ro : Role)
    (h : classifyPath p = PathClass.wrongLocation ro) : entryWrongLocated (p, c) = true := by
  have hs : scanFile p c = some (p, StaleReason.WrongLocation :: contentReasons c) := by
    unfold scanFile
    rw [h]
  unfold entryWrongLocated
  rw [hs]
  simp

theorem joinWith_cons_data (sep : String) (a : String) (l : List String) :
    ∃ t, (joinWith sep (a :: l)).data = a.data ++ t := by
  cases l with
  | nil => exact ⟨[], by simp [joinWith]⟩
  | cons b bs =>
    refine ⟨sep.data ++ (joinWith sep (b :: bs)).data, ?_⟩
    show ((a ++ sep) ++ joinWith sep (b :: bs)).data = _
    rw [string_data_append, string_data_append, List.append_assoc]

theorem detailLine_wrongLocation_infix (p : List String) (rs : List StaleReason) :
    hasInfix "wrong location".data
      (detailLine p (StaleReason.WrongLocation :: rs)).data = true := by
  unfold detailLine
  obtain ⟨t, ht⟩ : ∃ t, (joinWith ", " ((StaleReason.WrongLocation :: rs).map reasonText)).data
      = "wrong location".data ++ t := by
    rw [List.map_cons]
    exact joinWith_cons_data ", " _ _
  rw [string_data_append, ht]
  exact hasInfix_append _ _ _

/-- C3: for every non-skipped rig name and every settings-file content
(valid or not), a settings file at `<rig>/witness/.claude/settings.json` or
`<rig>/refinery/.claude/settings.json` (one segment shallower than the
canonical location) is classified as the same role misplaced, its reason
set carries `WrongLocation`, and any scan of a tree containing it has
overall status Error with a detail mentioning "wrong location". -/
theorem claim_C3_wrong_location (rig roleDir : String) (ro : Role) (c : FileContent)
    (F : TownFiles) (hskip : isSkipped rig = false)
    (hrole : roleDir = "witness" ∧ ro = Role.Witness
      ∨ roleDir = "refinery" ∧ ro = Role.Refinery)
    (hmem : ([rig, roleDir, ".claude", "settings.json"], c) ∈ F) :
    classifyPath [rig, roleDir, ".claude", "settings.json"] = PathClass.wrongLocation ro
    ∧ scanFile [rig, roleDir, ".claude", "settings.json"] c
        = some ([rig, roleDir, ".claude", "settings.json"],
            StaleReason.WrongLocation :: contentReasons c)
    ∧ (runScan F).status = CheckStatus.error
    ∧ ∃ d ∈ (runScan F).details, hasInfix "wrong location".data d.data = true := by
  have hcl : classifyPath [rig, roleDir, ".claude", "settings.json"]
      = PathClass.wrongLocation ro := by
    rcases hrole with ⟨h1, h2⟩ | ⟨h1, h2⟩
    · subst h1
      subst h2
      simp [classifyPath, hskip]
    · subst h1
      subst h2
      simp [classifyPath, hskip]
  have hsf : scanFile [rig, roleDir, ".claude", "settings.json"] c
      = some ([rig, roleDir, ".claude", "settings.json"],
          StaleReason.WrongLocation :: contentReasons c) := by
    unfold scanFile
    rw [hcl]
  have hstale : ([rig, roleDir, ".claude", "settings.json"],
      StaleReason.WrongLocation :: contentReasons c) ∈ staleFiles F := by
    unfold staleFiles
    rw [List.mem_filter]
    refine ⟨?_, by simp⟩
    rw [List.mem_filterMap]
    exact ⟨_, hmem, hsf⟩
  have hne : ¬ (staleFiles F).isEmpty = true := by
    intro h
    rw [List.isEmpty_iff] at h
    rw [h] at hstale
    exact absurd hstale (List.not_mem_nil _)
  have hstatus : (runScan F).status = CheckStatus.error := by
    simp only [runScan]
    rw [if_neg hne]
  have hdetails : (runScan F).details
      = (staleFiles F).map (fun sf => detailLine sf.1 sf.2) := by
    simp only [runScan]
    rw [if_neg hne]
  refine ⟨hcl, hsf, hstatus, ?_⟩
  rw [hdetails]
  refine ⟨detailLine [rig, roleDir, ".claude", "settings.json"]
      (StaleReason.WrongLocation :: contentReasons c), ?_, ?_⟩
  · exact List.mem_map.mpr ⟨_, hstale, rfl⟩
  · exact detailLine_wrongLocation_infix _ _

/-- Witness for C3 at a concrete input: a fully valid-or-not settings file
(here: invalid JSON) at `testrig/witness/.claude/settings.json` is
classified as a misplaced witness file, carries `WrongLocation`, and makes
the scan report Error with a "wrong location" detail. -/
theorem claim_C3_wrong_location_witness :
    classifyPath ["testrig", "witness", ".claude", "settings.json"]
        = PathClass.wrongLocation Role.Witness
    ∧ scanFile ["testrig", "witness", ".claude", "settings.json"] FileContent.invalid
        = some (["testrig", "witness", ".claude", "settings.json"],
            StaleReason.WrongLocation :: contentReasons FileContent.invalid)
    ∧ (runScan [(["testrig", "witness", ".claude", "settings.json"],
        FileContent.invalid)]).status = CheckStatus.error
    ∧ ∃ d ∈ (runScan [(["testrig", "witness", ".claude", "settings.json"],
        FileContent.invalid)]).details,
        hasInfix "wrong location".data d.data = true :=
  claim_C3_wrong_location "testrig" "witness" Role.Witness FileContent.invalid
    [(["testrig", "witness", ".claude", "settings.json"], FileContent.invalid)]
    (by decide) (Or.inl ⟨rfl, rfl⟩) (by simp)

/-- C7: settings files located under skip-listed top-level directories (the
fixed deny-list plus any hidden directory) are never classified as settings
of any role — apart from the fixed town-level mayor and deacon locations,
which are not rig-scoped — are not scanned at all regardless of their
content, and contribute nothing to any scan: adding such a file to a tree
leaves the scan result unchanged. -/
theorem claim_C7_skip_dirs (d : String) (rest : List String)
    (hd : isSkipped d = true)
    (h1 : d :: rest ≠ [".claude", "settings.json"])
    (h2 : d :: rest ≠ ["deacon", ".claude", "settings.json"]) :
    classifyPath (d :: rest) = PathClass.notSettings
    ∧ (∀ c, scanFile (d :: rest) c = none)
    ∧ ∀ c F, runScan (((d :: rest), c) :: F) = runScan F := by
  have hcl : classifyPath (d :: rest) = PathClass.notSettings := by
    rcases rest with _ | ⟨b, _ | ⟨e3, _ | ⟨e4, _ | ⟨e5, _ | ⟨e6, rest6⟩⟩⟩⟩⟩
    · rfl
    · by_cases hda : d = ".claude" ∧ b = "settings.json"
      · exact absurd (by rw [hda.1, hda.2]) h1
      · simp only [classifyPath, if_neg hda]
    · by_cases hda : d = "deacon" ∧ b = ".claude" ∧ e3 = "settings.json"
      · exact absurd (by rw [hda.1, hda.2.1, hda.2.2]) h2
      · simp only [classifyPath, if_neg hda]
    · simp [classifyPath, hd]
    · simp [classifyPath, hd]
    · rfl
  refine ⟨hcl, fun c => ?_, fun c F => ?_⟩
  · unfold scanFile
    rw [hcl]
  · have hsf : scanFile (d :: rest) c = none := by
      unfold scanFile
      rw [hcl]
    have hstale : staleFiles (((d :: rest), c) :: F) = staleFiles F := by
      unfold staleFiles
      simp only [List.filterMap_cons, hsf]
    unfold runScan
    rw [hstale]

/-- Witness for C7 at a concrete input: a settings file (with a stale
content, even) under `mayor/witness/rig/.claude/` is not classified, not
scanned, and adding it to an empty tree leaves the scan result unchanged. -/
theorem claim_C7_skip_dirs_witness :
    classifyPath ["mayor", "witness", "rig", ".claude", "settings.json"]
        = PathClass.notSettings
    ∧ (∀ c, scanFile ["mayor", "witness", "rig", ".claude", "settings.json"] c = none)
    ∧ ∀ c F, runScan ((["mayor", "witness", "rig", ".claude", "settings.json"], c) :: F)
        = runScan F :=
  claim_C7_skip_dirs "mayor" ["witness", "rig", ".claude", "settings.json"]
    (by decide) (by decide) (by decide)

/-- C4: `Fix` is deletion-only and targets exactly the wrong-located files:
the fixed tree is a sublist of the original (no content is synthesized or
rewritten); every correctly-located file survives, however deficient its
content; a file of the tree survives iff its reason set does not include
`WrongLocation`; every wrong-located file is gone after the fix; fixing
twice equals fixing once; and when every stale file of the tree carried
`WrongLocation` (as in the wrong-location-only test tree), a subsequent
scan of the fixed tree reports OK. -/
theorem claim_C4_fix_deletes_wrong_location (F : TownFiles) :
    List.Sublist (fixTree F) F
    ∧ (∀ p c ro, (p, c) ∈ F → classifyPath p = PathClass.correct ro → (p, c) ∈ fixTree F)
    ∧ (∀ p c, (p, c) ∈ F →
        ((p, c) ∈ fixTree F ↔ entryWrongLocated (p, c) = false))
    ∧ (∀ p c, entryWrongLocated (p, c) = true → (p, c) ∉ fixTree F)
    ∧ fixTree (fixTree F) = fixTree F
    ∧ ((∀ sf ∈ staleFiles F, StaleReason.WrongLocation ∈ sf.2) →
        (runScan (fixTree F)).status = CheckStatus.ok) := by
  refine ⟨List.filter_sublist F, ?_, ?_, ?_, ?_, ?_⟩
  · intro p c ro hm hcl
    unfold fixTree
    rw [List.mem_filter]
    refine ⟨hm, ?_⟩
    rw [entryWrongLocated_correct p c ro hcl]
    rfl
  · intro p c hm
    unfold fixTree
    rw [List.mem_filter]
    constructor
    · rintro ⟨_, hq⟩
      simpa using hq
    · intro hq
      refine ⟨hm, ?_⟩
      rw [hq]
      rfl
  · intro p c hq hmem
    unfold fixTree at hmem
    rw [List.mem_filter, hq] at hmem
    simpa using hmem.2
  · unfold fixTree
    rw [List.filter_filter]
    congr 1
    funext e
    rw [Bool.and_self]
  · intro hall
    have hempty : staleFiles (fixTree F) = [] := by
      by_contra hne
      obtain ⟨sf, hsf⟩ := List.exists_mem_of_ne_nil _ hne
      unfold staleFiles at hsf
      rw [List.mem_filter, List.mem_filterMap] at hsf
      obtain ⟨⟨e, hef, hse⟩, hnemp⟩ := hsf
      have he2 : e ∈ F := List.mem_of_mem_filter hef
      have hq : entryWrongLocated e = false := by
        have := (List.mem_filter.mp hef).2
        simpa using this
      have hsfF : sf ∈ staleFiles F := by
        unfold staleFiles
        rw [List.mem_filter, List.mem_filterMap]
        exact ⟨⟨e, he2, hse⟩, hnemp⟩
      have hwl := hall sf hsfF
      have htrue : entryWrongLocated e = true := by
        unfold entryWrongLocated
        rw [hse]
        simpa using hwl
      rw [htrue] at hq
      exact absurd hq (by simp)
    simp only [runScan]
    rw [hempty]
    rfl

/-- Witness for C4 at a concrete input: in a tree holding one misplaced
witness settings file and one correctly-located (but invalid) mayor file,
the misplaced file is deleted by the fix, the correct file survives, and
the wrong-location-only subtree scans OK after the fix. -/
theorem claim_C4_fix_witness :
    (∀ p c, entryWrongLocated (p, c) = true →
      (p, c) ∉ fixTree [(["testrig", "witness", ".claude", "settings.json"],
        FileContent.invalid)])
    ∧ ((∀ sf ∈ staleFiles [(["testrig", "witness", ".claude", "settings.json"],
          FileContent.invalid)], StaleReason.WrongLocation ∈ sf.2) →
        (runScan (fixTree [(["testrig", "witness", ".claude", "settings.json"],
          FileContent.invalid)])).status = CheckStatus.ok) :=
  ⟨(claim_C4_fix_deletes_wrong_location _).2.2.2.1,
   (claim_C4_fix_deletes_wrong_location _).2.2.2.2.2⟩

/-- Witness for C9 at a concrete input: with `polecat/a` active, a real run
over local branches `polecat/a`, `polecat/c` and remote branch
`origin/polecat/d` never attempts to delete the active `polecat/a`: neither
attempted branch is in the active set. -/
theorem claim_C9_prune_set_difference_witness :
    "polecat/c" ∉
      (PruneInput.mk ["polecat/a"] ["polecat/a", "polecat/c"] true
        ["origin/polecat/d"] true).activeBranches
    ∧ "polecat/d" ∉
      (PruneInput.mk ["polecat/a"] ["polecat/a", "polecat/c"] true
        ["origin/polecat/d"] true).activeBranches :=
  ⟨(claim_C9_prune_set_difference
      (PruneInput.mk ["polecat/a"] ["polecat/a", "polecat/c"] true
        ["origin/polecat/d"] true) (fun _ => true) (fun _ => true)).2.1
      "polecat/c" (by decide),
   (claim_C9_prune_set_difference
      (PruneInput.mk ["polecat/a"] ["polecat/a", "polecat/c"] true
        ["origin/polecat/d"] true) (fun _ => true) (fun _ => true)).2.2.2
      "polecat/d" (by decide)⟩
